import Mathlib

/-!
Verification of the fantasy-basketball analyzer core
(matchup_analyzer.py, schedule_analyzer.py, espn_schedule_scraper.py).

Conventions of the shallow embedding:
* Python floats carrying stat values are modelled as `ℚ`.
* Calendar dates are modelled as `Int` day numbers (days since a fixed
  epoch that falls on a Monday), so that pandas `dayofweek` (Monday = 0)
  becomes `d.emod 7` and a difference of one calendar day is `d₂ - d₁ = 1`.
* pandas DataFrames become lists of structures; `print` diagnostics become
  explicit output components (warning flags / warning lists).
-/

namespace FantasyBasketball

/-- Per-category winner label used in `get_current_matchup_scores`
(`'YOU'`, `'OPP'`, `'TIE'`). -/
inductive Winner where
  | you : Winner
  | opp : Winner
  | tie : Winner
deriving DecidableEq, Repr

/-- Category-winner determination from `get_current_matchup_scores`
(matchup_analyzer.py lines 187-207): for a negative category
(`is_negative`, lower is better) your value strictly below the opponent's
wins, strictly above loses, equal ties; for a non-negative category the
comparisons are reversed. -/
def categoryWinner (is_negative : Bool) (your_value opp_value : ℚ) : Winner :=
  if is_negative then
    if your_value < opp_value then Winner.you
    else if opp_value < your_value then Winner.opp
    else Winner.tie
  else
    if your_value > opp_value then Winner.you
    else if opp_value > your_value then Winner.opp
    else Winner.tie

/-- C1: the category-winner determination yields YOU exactly when the
orientation-aware strict inequality favours you, OPP exactly when it favours
the opponent, TIE exactly on equality; and on the concrete input 5 vs 3 a
negative category goes to OPP while a non-negative one goes to YOU. -/
theorem C1_category_winner (is_negative : Bool) (y o : ℚ) :
    (categoryWinner is_negative y o = Winner.you ↔
      ((is_negative = true ∧ y < o) ∨ (is_negative = false ∧ y > o))) ∧
    (categoryWinner is_negative y o = Winner.opp ↔
      ((is_negative = true ∧ o < y) ∨ (is_negative = false ∧ o > y))) ∧
    (categoryWinner is_negative y o = Winner.tie ↔ y = o) ∧
    categoryWinner true (5 : ℚ) 3 = Winner.opp ∧
    categoryWinner false (5 : ℚ) 3 = Winner.you := by
  refine ⟨?_, ?_, ?_, by norm_num [categoryWinner], by norm_num [categoryWinner]⟩ <;>
    rcases lt_trichotomy y o with h | h | h <;>
      cases is_negative <;>
        first
          | (subst h; simp [categoryWinner, lt_irrefl])
          | simp_all [categoryWinner, asymm h, h.ne, h.ne']

/-- A scoring category from the league configuration: ESPN stat id plus the
negative-orientation flag (`is_negative = true` means lower is better, e.g.
turnovers). -/
structure ScoringCategory where
  stat_id : Nat
  is_negative : Bool
deriving DecidableEq, Repr

/-- `_map_stat_id_to_column` (matchup_analyzer.py lines 67-92): maps ESPN's
stat id to the CSV column name, with default `STAT_<id>`. -/
def mapStatIdToColumn (stat_id : Nat) : String :=
  match stat_id with
  | 0 => "PTS"
  | 1 => "BLK"
  | 2 => "STL"
  | 3 => "AST"
  | 6 => "REB"
  | 11 => "TO"
  | 13 => "FGM"
  | 14 => "FGA"
  | 15 => "FTM"
  | 16 => "FTA"
  | 17 => "3PM"
  | 18 => "3PA"
  | 19 => "FG%"
  | 20 => "FT%"
  | n => "STAT_" ++ toString n

/-- One entry of `category_breakdown` built by `get_current_matchup_scores`
(matchup_analyzer.py lines 209-215). -/
structure CatLine where
  category : String
  your_score : ℚ
  opp_score : ℚ
  winner : Winner
  is_negative : Bool
deriving DecidableEq, Repr

/-- The per-category loop of `get_current_matchup_scores`
(matchup_analyzer.py lines 163-215): for each configured category, read the
two extracted stat values (the raw-payload extraction with its
`score`-field fallbacks is upstream plumbing, so the already-extracted
values are passed in as functions of the stat id), determine the winner with
the orientation-aware rule, count wins/losses/ties and append a breakdown
line.  Returns `(your_wins, opp_wins, ties, category_breakdown)`. -/
def matchupLoop (yourStats oppStats : Nat → ℚ) :
    List ScoringCategory → Nat × Nat × Nat × List CatLine
  | [] => (0, 0, 0, [])
  | c :: rest =>
    let your_value := yourStats c.stat_id
    let opp_value := oppStats c.stat_id
    let w := categoryWinner c.is_negative your_value opp_value
    let line : CatLine :=
      { category := mapStatIdToColumn c.stat_id
        your_score := your_value
        opp_score := opp_value
        winner := w
        is_negative := c.is_negative }
    let (yw, ow, t, bd) := matchupLoop yourStats oppStats rest
    match w with
    | Winner.you => (yw + 1, ow, t, line :: bd)
    | Winner.opp => (yw, ow + 1, t, line :: bd)
    | Winner.tie => (yw, ow, t + 1, line :: bd)

/-- Result of `get_current_matchup_scores` for an H2H Category league
(matchup_analyzer.py lines 222-232); the week/team-id bookkeeping fields are
upstream identifiers and are omitted. `categories_won`/`categories_lost`
are `ℚ` because the upstream `totalPoints` aggregates are floats. -/
structure MatchupResult where
  categories_won : ℚ
  categories_lost : ℚ
  categories_tied : Nat
  is_winning : Bool
  category_breakdown : List CatLine
deriving DecidableEq, Repr

/-- `get_current_matchup_scores`, H2H Category branch
(matchup_analyzer.py lines 146-232): run the per-category loop, then apply
the degenerate-counter fallback (lines 217-220): if both upstream
`totalPoints` aggregates are exactly zero, replace them with the locally
computed win/loss counts; otherwise report the upstream aggregates. -/
def get_current_matchup_scores (cats : List ScoringCategory)
    (yourStats oppStats : Nat → ℚ) (your_cats_won_upstream opp_cats_won_upstream : ℚ) :
    MatchupResult :=
  let r := matchupLoop yourStats oppStats cats
  let your_wins := r.1
  let opp_wins := r.2.1
  let ties := r.2.2.1
  let breakdown := r.2.2.2
  let your_cats_won :=
    if your_cats_won_upstream = 0 ∧ opp_cats_won_upstream = 0 then (your_wins : ℚ)
    else your_cats_won_upstream
  let opp_cats_won :=
    if your_cats_won_upstream = 0 ∧ opp_cats_won_upstream = 0 then (opp_wins : ℚ)
    else opp_cats_won_upstream
  { categories_won := your_cats_won
    categories_lost := opp_cats_won
    categories_tied := ties
    is_winning := your_cats_won > opp_cats_won
    category_breakdown := breakdown }

/-- Winner predicate used to restate the loop counters as filter lengths. -/
def winsCat (yourStats oppStats : Nat → ℚ) (w : Winner) (c : ScoringCategory) : Bool :=
  categoryWinner c.is_negative (yourStats c.stat_id) (oppStats c.stat_id) == w

/-- The three loop counters are the filter-counts of the three winner
labels, and the breakdown lists every category in order. -/
theorem matchupLoop_counts (ys os : Nat → ℚ) (cats : List ScoringCategory) :
    (matchupLoop ys os cats).1 = (cats.filter (winsCat ys os Winner.you)).length ∧
    (matchupLoop ys os cats).2.1 = (cats.filter (winsCat ys os Winner.opp)).length ∧
    (matchupLoop ys os cats).2.2.1 = (cats.filter (winsCat ys os Winner.tie)).length ∧
    (matchupLoop ys os cats).2.2.2 = cats.map (fun c =>
      { category := mapStatIdToColumn c.stat_id
        your_score := ys c.stat_id
        opp_score := os c.stat_id
        winner := categoryWinner c.is_negative (ys c.stat_id) (os c.stat_id)
        is_negative := c.is_negative }) := by
  induction cats with
  | nil => simp [matchupLoop]
  | cons c rest ih =>
    obtain ⟨ih1, ih2, ih3, ih4⟩ := ih
    simp only [matchupLoop, List.filter_cons, List.map_cons]
    rcases hw : categoryWinner c.is_negative (ys c.stat_id) (os c.stat_id) with _ | _ | _ <;>
      simp_all [winsCat, List.length_cons]

/-- Exactly one winner label is assigned to any pair of values. -/
theorem categoryWinner_partition (neg : Bool) (y o : ℚ) :
    (categoryWinner neg y o = Winner.you ∧ categoryWinner neg y o ≠ Winner.opp ∧
        categoryWinner neg y o ≠ Winner.tie) ∨
    (categoryWinner neg y o = Winner.opp ∧ categoryWinner neg y o ≠ Winner.you ∧
        categoryWinner neg y o ≠ Winner.tie) ∨
    (categoryWinner neg y o = Winner.tie ∧ categoryWinner neg y o ≠ Winner.you ∧
        categoryWinner neg y o ≠ Winner.opp) := by
  rcases h : categoryWinner neg y o with _ | _ | _ <;> simp

/-- C3: the upstream aggregate win counts are replaced by the locally
computed per-category win/loss counts exactly when both upstream counts are
zero, and are reported unchanged otherwise; on a concrete 9-category
scoreline whose local breakdown is 6-3-0 with upstream 0-0, the result
reports 6-3-0. -/
theorem C3_degenerate_fallback (cats : List ScoringCategory)
    (ys os : Nat → ℚ) (yu ou : ℚ) :
    ((yu = 0 ∧ ou = 0) →
      (get_current_matchup_scores cats ys os yu ou).categories_won =
        ((cats.filter (winsCat ys os Winner.you)).length : ℚ) ∧
      (get_current_matchup_scores cats ys os yu ou).categories_lost =
        ((cats.filter (winsCat ys os Winner.opp)).length : ℚ)) ∧
    (¬(yu = 0 ∧ ou = 0) →
      (get_current_matchup_scores cats ys os yu ou).categories_won = yu ∧
      (get_current_matchup_scores cats ys os yu ou).categories_lost = ou) ∧
    ((get_current_matchup_scores
        ((List.range 9).map (fun i => ⟨i, false⟩))
        (fun i => if i < 6 then 10 else 1) (fun _ => 5) 0 0).categories_won = 6 ∧
     (get_current_matchup_scores
        ((List.range 9).map (fun i => ⟨i, false⟩))
        (fun i => if i < 6 then 10 else 1) (fun _ => 5) 0 0).categories_lost = 3 ∧
     (get_current_matchup_scores
        ((List.range 9).map (fun i => ⟨i, false⟩))
        (fun i => if i < 6 then 10 else 1) (fun _ => 5) 0 0).categories_tied = 0) := by
  obtain ⟨h1, h2, h3, _⟩ := matchupLoop_counts ys os cats
  refine ⟨fun hz => ?_, fun hz => ?_, ?_⟩
  · simp [get_current_matchup_scores, hz.1, hz.2, h1, h2]
  · simp [get_current_matchup_scores, hz]
  · refine ⟨?_, ?_, ?_⟩ <;> decide

/-- Closed witness for C3 at concrete inputs: the fallback branch is taken
for upstream 0-0, the upstream counts are kept for upstream 5-4. -/
theorem C3_degenerate_fallback_witness :
    (get_current_matchup_scores [⟨0, false⟩] (fun _ => 7) (fun _ => 2) 0 0).categories_won = 1 ∧
    (get_current_matchup_scores [⟨0, false⟩] (fun _ => 7) (fun _ => 2) 5 4).categories_won = 5 := by
  constructor
  · have h := (C3_degenerate_fallback [⟨0, false⟩] (fun _ => 7) (fun _ => 2) 0 0).1
      (by norm_num)
    rw [h.1]
    decide
  · exact ((C3_degenerate_fallback [⟨0, false⟩] (fun _ => 7) (fun _ => 2) 5 4).2.1
      (by norm_num)).1

/-- The three winner labels partition any list of categories. -/
theorem filter_winsCat_partition (ys os : Nat → ℚ) (cats : List ScoringCategory) :
    (cats.filter (winsCat ys os Winner.you)).length +
      (cats.filter (winsCat ys os Winner.opp)).length +
      (cats.filter (winsCat ys os Winner.tie)).length = cats.length := by
  induction cats with
  | nil => simp
  | cons c rest ih =>
    simp only [List.filter_cons]
    rcases categoryWinner_partition c.is_negative (ys c.stat_id) (os c.stat_id) with
        ⟨hw, hn1, hn2⟩ | ⟨hw, hn1, hn2⟩ | ⟨hw, hn1, hn2⟩ <;>
      simp [winsCat, hw, hn1, hn2, List.length_cons] <;> omega

/-- C10: every configured category gets exactly one breakdown line whose
winner label is the orientation-aware comparison of its two values; the
locally computed win/loss/tie counts partition the category set; and the
reported tie count always equals the locally computed tie count (the
degenerate-counter fallback never touches it). -/
theorem C10_scoreline_invariants (cats : List ScoringCategory)
    (ys os : Nat → ℚ) (yu ou : ℚ) :
    (get_current_matchup_scores cats ys os yu ou).category_breakdown.length = cats.length ∧
    (∀ l ∈ (get_current_matchup_scores cats ys os yu ou).category_breakdown,
        l.winner = categoryWinner l.is_negative l.your_score l.opp_score) ∧
    (cats.filter (winsCat ys os Winner.you)).length +
      (cats.filter (winsCat ys os Winner.opp)).length +
      (cats.filter (winsCat ys os Winner.tie)).length = cats.length ∧
    (get_current_matchup_scores cats ys os yu ou).categories_tied =
      (cats.filter (winsCat ys os Winner.tie)).length := by
  obtain ⟨h1, h2, h3, h4⟩ := matchupLoop_counts ys os cats
  refine ⟨?_, ?_, ?_, ?_⟩
  · simp [get_current_matchup_scores, h4]
  · intro l hl
    simp only [get_current_matchup_scores, h4, List.mem_map] at hl
    obtain ⟨c, _, rfl⟩ := hl
    rfl
  · exact filter_winsCat_partition ys os cats
  · simp [get_current_matchup_scores, h3]

/-- Closed witness for C10 at a concrete two-category scoreline. -/
theorem C10_scoreline_invariants_witness :
    (get_current_matchup_scores [⟨0, false⟩, ⟨11, true⟩]
        (fun _ => 3) (fun _ => 3) 9 9).categories_tied = 2 := by
  have h := C10_scoreline_invariants [⟨0, false⟩, ⟨11, true⟩] (fun _ => 3) (fun _ => 3) 9 9
  rw [h.2.2.2]
  decide

/-- ASCII-faithful model of Python's `str.lower()` (string case folding is
needed by the name lookups; `String.toLower` maps the same `Char.toLower`
over the characters). -/
def lowercase (s : String) : String := String.mk (s.data.map Char.toLower)

/-- ASCII-faithful model of Python's `str.upper()`. -/
def uppercase (s : String) : String := String.mk (s.data.map Char.toUpper)

/-- One row of the schedule DataFrame loaded by `ScheduleAnalyzer`
(schedule_analyzer.py lines 11-27): team abbreviation (stored uppercase by
the scraper), parsed calendar date, and the day-of-week display name. -/
structure ScheduleRow where
  Team : String
  ParsedDate : Int
  DayOfWeek : String
deriving DecidableEq, Repr

/-- `ScheduleAnalyzer.get_games_in_date_range`
(schedule_analyzer.py lines 50-74): keep the rows whose `Team` equals the
uppercased query and whose date lies between the two bounds (both
inclusive), then sort ascending by `ParsedDate` (`sort_values`). -/
def get_games_in_date_range (schedule_df : List ScheduleRow)
    (team : String) (start_date end_date : Int) : List ScheduleRow :=
  List.insertionSort (fun a b => a.ParsedDate ≤ b.ParsedDate)
    (schedule_df.filter (fun r =>
      r.Team == uppercase team &&
      decide (start_date ≤ r.ParsedDate) && decide (r.ParsedDate ≤ end_date)))

instance : IsTotal ScheduleRow (fun a b => a.ParsedDate ≤ b.ParsedDate) :=
  ⟨fun a b => le_total a.ParsedDate b.ParsedDate⟩

instance : IsTrans ScheduleRow (fun a b => a.ParsedDate ≤ b.ParsedDate) :=
  ⟨fun _ _ _ hab hbc => le_trans hab hbc⟩

/-- C8: `get_games_in_date_range` returns exactly the queried team's rows
with `start ≤ date ≤ end` (both bounds inclusive, with multiplicity), sorted
ascending by date, and is empty (not an error) exactly when no row
qualifies. -/
theorem C8_games_in_date_range (df : List ScheduleRow) (team : String)
    (s e : Int) :
    (get_games_in_date_range df team s e).Perm
      (df.filter (fun r =>
        r.Team == uppercase team && decide (s ≤ r.ParsedDate) && decide (r.ParsedDate ≤ e))) ∧
    (∀ r, r ∈ get_games_in_date_range df team s e ↔
      (r ∈ df ∧ r.Team = uppercase team ∧ s ≤ r.ParsedDate ∧ r.ParsedDate ≤ e)) ∧
    (get_games_in_date_range df team s e).Sorted
      (fun a b => a.ParsedDate ≤ b.ParsedDate) ∧
    (get_games_in_date_range df team s e = [] ↔
      ∀ r ∈ df, ¬(r.Team = uppercase team ∧ s ≤ r.ParsedDate ∧ r.ParsedDate ≤ e)) := by
  have hperm := List.perm_insertionSort
    (fun a b : ScheduleRow => a.ParsedDate ≤ b.ParsedDate)
    (df.filter (fun r =>
      r.Team == uppercase team && decide (s ≤ r.ParsedDate) && decide (r.ParsedDate ≤ e)))
  have hmem : ∀ r, r ∈ get_games_in_date_range df team s e ↔
      (r ∈ df ∧ r.Team = uppercase team ∧ s ≤ r.ParsedDate ∧ r.ParsedDate ≤ e) := by
    intro r
    rw [get_games_in_date_range, hperm.mem_iff, List.mem_filter]
    simp [and_assoc]
  refine ⟨hperm, hmem, ?_, ?_⟩
  · exact List.sorted_insertionSort _ _
  · constructor
    · intro hnil r hr hcond
      have := (hmem r).2 ⟨hr, hcond.1, hcond.2.1, hcond.2.2⟩
      simp [hnil] at this
    · intro h
      rcases hn : get_games_in_date_range df team s e with _ | ⟨r, rest⟩
      · rfl
      · exfalso
        have hr : r ∈ get_games_in_date_range df team s e := by simp [hn]
        obtain ⟨h1, h2, h3, h4⟩ := (hmem r).1 hr
        exact h r h1 ⟨h2, h3, h4⟩

/-- One row of the player-stats CSV (`data/player_stats_2025_season.csv`)
as consumed by `get_player_projections` (matchup_analyzer.py lines
269-318): name, pro-team abbreviation and the per-game rates actually read
by the projection (`threePM` stands for the `3PM` column, whose name is not
a Lean identifier). -/
structure PlayerRow where
  Name : String
  Team : String
  PTS : ℚ
  REB : ℚ
  AST : ℚ
  STL : ℚ
  BLK : ℚ
  threePM : ℚ
  FGM : ℚ
  FGA : ℚ
  FTM : ℚ
  FTA : ℚ
  TO : ℚ
deriving DecidableEq, Repr

/-- Outcome of the roster-slot stat lookup in `get_player_projections`:
either a stats row together with the team-mismatch flag (the player was
found under a different team, lines 276-283), or no row at all
(lines 284-286). -/
inductive LookupResult where
  | found (row : PlayerRow) (team_changed : Bool) : LookupResult
  | notFound : LookupResult
deriving DecidableEq, Repr

/-- The player resolution of `get_player_projections`
(matchup_analyzer.py lines 269-286): filter on exact (case-insensitive)
name plus team; if empty, refilter on name only; the first row of the
non-empty filter result is used (`iloc[0]`); if both filters are empty the
player is unresolved. -/
def lookupPlayerStats (table : List PlayerRow) (player_name pro_team : String) :
    LookupResult :=
  match table.filter (fun r =>
      lowercase r.Name == lowercase player_name && r.Team == pro_team) with
  | r :: _ => LookupResult.found r false
  | [] =>
    match table.filter (fun r => lowercase r.Name == lowercase player_name) with
    | r :: _ => LookupResult.found r true
    | [] => LookupResult.notFound

/-- Counterexample to C6 as stated: a table with two distinct rows for the
same name on different teams and a query team matching neither.  The
name-only filter has two candidates and the name+team filter none, yet the
lookup returns the first candidate (flagged as a team change) instead of
NotFound. -/
theorem C6_lookup_counterexample :
    (([⟨"John Doe", "AAA", 0, 0, 0, 0, 0, 0, 0, 0, 0, 0, 0⟩,
      ⟨"John Doe", "BBB", 1, 0, 0, 0, 0, 0, 0, 0, 0, 0, 0⟩] : List PlayerRow).filter
        (fun r => lowercase r.Name == lowercase "John Doe")).length = 2 ∧
    (([⟨"John Doe", "AAA", 0, 0, 0, 0, 0, 0, 0, 0, 0, 0, 0⟩,
      ⟨"John Doe", "BBB", 1, 0, 0, 0, 0, 0, 0, 0, 0, 0, 0⟩] : List PlayerRow).filter
        (fun r => lowercase r.Name == lowercase "John Doe" && r.Team == "CCC")).length = 0 ∧
    lookupPlayerStats
      [⟨"John Doe", "AAA", 0, 0, 0, 0, 0, 0, 0, 0, 0, 0, 0⟩,
       ⟨"John Doe", "BBB", 1, 0, 0, 0, 0, 0, 0, 0, 0, 0, 0⟩] "John Doe" "CCC" =
      LookupResult.found ⟨"John Doe", "AAA", 0, 0, 0, 0, 0, 0, 0, 0, 0, 0, 0⟩ true := by
  refine ⟨by decide, by decide, by decide⟩

/-- C6 as amended: exact case-insensitive name+team match first; on a miss
the lookup retries by name only and returns the FIRST name-only match with
the team-mismatch flag — even when several candidates exist — and returns
NotFound exactly when no name-only match exists. -/
theorem C6_lookup_amended (table : List PlayerRow) (nm tm : String) :
    (∀ r rest, table.filter (fun r =>
        lowercase r.Name == lowercase nm && r.Team == tm) = r :: rest →
      lookupPlayerStats table nm tm = LookupResult.found r false) ∧
    (table.filter (fun r => lowercase r.Name == lowercase nm && r.Team == tm) = [] →
      ∀ r rest, table.filter (fun r => lowercase r.Name == lowercase nm) = r :: rest →
        lookupPlayerStats table nm tm = LookupResult.found r true) ∧
    (table.filter (fun r => lowercase r.Name == lowercase nm) = [] →
      lookupPlayerStats table nm tm = LookupResult.notFound) := by
  refine ⟨?_, ?_, ?_⟩
  · intro r rest h
    simp [lookupPlayerStats, h]
  · intro hempty r rest h
    simp [lookupPlayerStats, hempty, h]
  · intro hname
    have hexact : table.filter (fun r =>
        lowercase r.Name == lowercase nm && r.Team == tm) = [] := by
      rw [List.filter_eq_nil_iff] at hname ⊢
      intro a ha
      simp only [Bool.and_eq_true, not_and]
      intro hlow
      exact absurd hlow (hname a ha)
    simp [lookupPlayerStats, hexact, hname]

/-- Closed witness for the amended C6 at concrete inputs: one hit on the
exact branch, one on the name-only branch, one NotFound. -/
theorem C6_lookup_amended_witness :
    lookupPlayerStats [⟨"Al Ab", "AAA", 2, 0, 0, 0, 0, 0, 0, 0, 0, 0, 0⟩] "al ab" "AAA" =
      LookupResult.found ⟨"Al Ab", "AAA", 2, 0, 0, 0, 0, 0, 0, 0, 0, 0, 0⟩ false ∧
    lookupPlayerStats [⟨"Al Ab", "AAA", 2, 0, 0, 0, 0, 0, 0, 0, 0, 0, 0⟩] "al ab" "BBB" =
      LookupResult.found ⟨"Al Ab", "AAA", 2, 0, 0, 0, 0, 0, 0, 0, 0, 0, 0⟩ true ∧
    lookupPlayerStats [⟨"Al Ab", "AAA", 2, 0, 0, 0, 0, 0, 0, 0, 0, 0, 0⟩] "Someone" "AAA" =
      LookupResult.notFound := by
  refine ⟨?_, ?_, ?_⟩
  · exact (C6_lookup_amended [⟨"Al Ab", "AAA", 2, 0, 0, 0, 0, 0, 0, 0, 0, 0, 0⟩]
      "al ab" "AAA").1 _ [] (by decide)
  · exact (C6_lookup_amended [⟨"Al Ab", "AAA", 2, 0, 0, 0, 0, 0, 0, 0, 0, 0, 0⟩]
      "al ab" "BBB").2.1 (by decide) _ [] (by decide)
  · exact (C6_lookup_amended [⟨"Al Ab", "AAA", 2, 0, 0, 0, 0, 0, 0, 0, 0, 0, 0⟩]
      "Someone" "AAA").2.2 (by decide)

/-- A roster slot as handed to `get_player_projections`: player name and
the pro-team abbreviation (`map_espn_team_to_abbr(player['pro_team_id'])`
is upstream id-to-abbreviation plumbing, so the abbreviation is taken as
input). -/
structure RosterEntry where
  name : String
  pro_team : String
deriving DecidableEq, Repr

/-- One projection row built by `get_player_projections`
(matchup_analyzer.py lines 299-318): every per-game rate multiplied by the
number of remaining games, plus the makes/attempts contribution pairs. -/
structure ProjectionRow where
  Player : String
  Team : String
  GamesRemaining : Nat
  PTS : ℚ
  REB : ℚ
  AST : ℚ
  STL : ℚ
  BLK : ℚ
  threePM : ℚ
  FGM : ℚ
  FGA : ℚ
  FTM : ℚ
  FTA : ℚ
  TO : ℚ
  fgContribution : ℚ × ℚ
  ftContribution : ℚ × ℚ
deriving DecidableEq, Repr

/-- The projection dictionary of one roster slot
(matchup_analyzer.py lines 299-318). -/
def projectPlayer (stats : PlayerRow) (p : RosterEntry) (games_remaining : Nat) :
    ProjectionRow :=
  { Player := p.name
    Team := p.pro_team
    GamesRemaining := games_remaining
    PTS := stats.PTS * (games_remaining : ℚ)
    REB := stats.REB * (games_remaining : ℚ)
    AST := stats.AST * (games_remaining : ℚ)
    STL := stats.STL * (games_remaining : ℚ)
    BLK := stats.BLK * (games_remaining : ℚ)
    threePM := stats.threePM * (games_remaining : ℚ)
    FGM := stats.FGM * (games_remaining : ℚ)
    FGA := stats.FGA * (games_remaining : ℚ)
    FTM := stats.FTM * (games_remaining : ℚ)
    FTA := stats.FTA * (games_remaining : ℚ)
    TO := stats.TO * (games_remaining : ℚ)
    fgContribution := (stats.FGM * (games_remaining : ℚ), stats.FGA * (games_remaining : ℚ))
    ftContribution := (stats.FTM * (games_remaining : ℚ), stats.FTA * (games_remaining : ℚ)) }

/-- Output of `get_player_projections`: the projection rows (the returned
DataFrame) plus the two stdout diagnostics modelled as explicit outputs:
the `Found X - was on ... now on ...` notes for team changes and the
`Could not find stats for X` warnings for unresolved players
(matchup_analyzer.py lines 281-286). -/
structure ProjectionsOutput where
  projections : List ProjectionRow
  team_change_notes : List String
  unresolved : List String
deriving DecidableEq, Repr

/-- `get_player_projections` (matchup_analyzer.py lines 251-322): for each
roster slot resolve the stats row (`lookupPlayerStats`), count the team's
remaining games in the window via `get_games_in_date_range`, and project
every per-game rate times the game count; unresolved players are skipped
(`continue`) with a warning. -/
def get_player_projections (table : List PlayerRow) (schedule_df : List ScheduleRow)
    (roster : List RosterEntry) (start_date end_date : Int) : ProjectionsOutput :=
  match roster with
  | [] => { projections := [], team_change_notes := [], unresolved := [] }
  | p :: rest =>
    let out := get_player_projections table schedule_df rest start_date end_date
    match lookupPlayerStats table p.name p.pro_team with
    | LookupResult.notFound =>
      { projections := out.projections
        team_change_notes := out.team_change_notes
        unresolved := p.name :: out.unresolved }
    | LookupResult.found stats changed =>
      let games := get_games_in_date_range schedule_df p.pro_team start_date end_date
      { projections := projectPlayer stats p games.length :: out.projections
        team_change_notes := (if changed then [p.name] else []) ++ out.team_change_notes
        unresolved := out.unresolved }

/-- Aggregate FG% over the projection rows (analyze_matchup,
matchup_analyzer.py lines 401-407): summed makes over summed attempts,
scaled to a percentage, 0 when the attempts sum is not positive. -/
def fg_pct (rows : List ProjectionRow) : ℚ :=
  if (rows.map ProjectionRow.FGA).sum > 0 then
    (rows.map ProjectionRow.FGM).sum / (rows.map ProjectionRow.FGA).sum * 100
  else 0

/-- Aggregate FT% over the projection rows (matchup_analyzer.py lines
403-407). -/
def ft_pct (rows : List ProjectionRow) : ℚ :=
  if (rows.map ProjectionRow.FTA).sum > 0 then
    (rows.map ProjectionRow.FTM).sum / (rows.map ProjectionRow.FTA).sum * 100
  else 0

/-- Concrete two-player rate table for the end-to-end scenario:
Player A averages PTS 20, FGM 5, FGA 10; Player B averages PTS 10, FGM 2,
FGA 4. -/
def tableAB : List PlayerRow :=
  [⟨"Player A", "AAA", 20, 0, 0, 0, 0, 0, 5, 10, 0, 0, 0⟩,
   ⟨"Player B", "BBB", 10, 0, 0, 0, 0, 0, 2, 4, 0, 0, 0⟩]

/-- Concrete schedule: team AAA has 2 games and team BBB has 3 games inside
the window `[0, 6]`. -/
def schedAB : List ScheduleRow :=
  [⟨"AAA", 1, "Wed"⟩, ⟨"AAA", 3, "Fri"⟩,
   ⟨"BBB", 1, "Wed"⟩, ⟨"BBB", 2, "Thu"⟩, ⟨"BBB", 4, "Sat"⟩]

/-- Concrete roster holding the two players of `tableAB`. -/
def rosterAB : List RosterEntry :=
  [⟨"Player A", "AAA"⟩, ⟨"Player B", "BBB"⟩]

/-- Every projection row comes from a roster slot whose stats row was
resolved, with the game count taken from the schedule window. -/
theorem projections_rows_resolved (table : List PlayerRow)
    (sched : List ScheduleRow) (roster : List RosterEntry) (s e : Int) :
    ∀ row ∈ (get_player_projections table sched roster s e).projections,
      ∃ p, p ∈ roster ∧ ∃ st ch,
        lookupPlayerStats table p.name p.pro_team = LookupResult.found st ch ∧
        row = projectPlayer st p (get_games_in_date_range sched p.pro_team s e).length := by
  induction roster with
  | nil => simp [get_player_projections]
  | cons p rest ih =>
    intro row hrow
    cases hl : lookupPlayerStats table p.name p.pro_team with
    | found st ch =>
      simp only [get_player_projections, hl, List.mem_cons] at hrow
      rcases hrow with hrow | hrow
      · exact ⟨p, List.mem_cons_self p rest, st, ch, hl, hrow⟩
      · obtain ⟨q, hq, st', ch', hl', hr'⟩ := ih row hrow
        exact ⟨q, List.mem_cons_of_mem p hq, st', ch', hl', hr'⟩
    | notFound =>
      simp only [get_player_projections, hl] at hrow
      obtain ⟨q, hq, st', ch', hl', hr'⟩ := ih row hrow
      exact ⟨q, List.mem_cons_of_mem p hq, st', ch', hl', hr'⟩

/-- The concrete scenario's projection rows, computed once: Player A over 2
games and Player B over 3 games. -/
theorem projAB_eq :
    (get_player_projections tableAB schedAB rosterAB 0 6).projections =
      [projectPlayer ⟨"Player A", "AAA", 20, 0, 0, 0, 0, 0, 5, 10, 0, 0, 0⟩
          ⟨"Player A", "AAA"⟩ 2,
       projectPlayer ⟨"Player B", "BBB", 10, 0, 0, 0, 0, 0, 2, 4, 0, 0, 0⟩
          ⟨"Player B", "BBB"⟩ 3] := rfl

/-- C4: the derived shooting percentages are computed from summed makes and
attempts (0 when the attempts sum is not positive), every projection row is
a resolved per-game rate times that player's window game count, and the
end-to-end scenario (A: PTS 20/FGM 5/FGA 10 over 2 games, B: PTS 10/FGM 2/
FGA 4 over 3 games) yields PTS 70, FGM 16, FGA 32, FG% 50. -/
theorem C4_summed_percentages (rows : List ProjectionRow)
    (table : List PlayerRow) (sched : List ScheduleRow)
    (roster : List RosterEntry) (s e : Int) :
    ((rows.map ProjectionRow.FGA).sum > 0 →
      fg_pct rows = (rows.map ProjectionRow.FGM).sum / (rows.map ProjectionRow.FGA).sum * 100) ∧
    (¬(rows.map ProjectionRow.FGA).sum > 0 → fg_pct rows = 0) ∧
    ((rows.map ProjectionRow.FTA).sum > 0 →
      ft_pct rows = (rows.map ProjectionRow.FTM).sum / (rows.map ProjectionRow.FTA).sum * 100) ∧
    (¬(rows.map ProjectionRow.FTA).sum > 0 → ft_pct rows = 0) ∧
    (∀ row ∈ (get_player_projections table sched roster s e).projections,
      ∃ p, p ∈ roster ∧ ∃ st ch,
        lookupPlayerStats table p.name p.pro_team = LookupResult.found st ch ∧
        row.PTS = st.PTS * (row.GamesRemaining : ℚ) ∧
        row.FGM = st.FGM * (row.GamesRemaining : ℚ) ∧
        row.FGA = st.FGA * (row.GamesRemaining : ℚ) ∧
        row.GamesRemaining = (get_games_in_date_range sched p.pro_team s e).length) ∧
    (((get_player_projections tableAB schedAB rosterAB 0 6).projections.map
        ProjectionRow.PTS).sum = 70 ∧
     ((get_player_projections tableAB schedAB rosterAB 0 6).projections.map
        ProjectionRow.FGM).sum = 16 ∧
     ((get_player_projections tableAB schedAB rosterAB 0 6).projections.map
        ProjectionRow.FGA).sum = 32 ∧
     fg_pct (get_player_projections tableAB schedAB rosterAB 0 6).projections = 50) := by
  refine ⟨fun h => ?_, fun h => ?_, fun h => ?_, fun h => ?_, ?_, ?_⟩
  · simp [fg_pct, if_pos h]
  · simp [fg_pct, if_neg h]
  · simp [ft_pct, if_pos h]
  · simp [ft_pct, if_neg h]
  · intro row hrow
    obtain ⟨p, hp, st, ch, hl, hr⟩ :=
      projections_rows_resolved table sched roster s e row hrow
    subst hr
    exact ⟨p, hp, st, ch, hl, rfl, rfl, rfl, rfl⟩
  · refine ⟨?_, ?_, ?_, ?_⟩ <;>
      · rw [projAB_eq]
        norm_num [projectPlayer, fg_pct]

/-- Closed witness for C4: the positive-attempts branch at the concrete
scenario. -/
theorem C4_summed_percentages_witness :
    fg_pct (get_player_projections tableAB schedAB rosterAB 0 6).projections =
      ((get_player_projections tableAB schedAB rosterAB 0 6).projections.map
        ProjectionRow.FGM).sum /
      ((get_player_projections tableAB schedAB rosterAB 0 6).projections.map
        ProjectionRow.FGA).sum * 100 :=
  (C4_summed_percentages (get_player_projections tableAB schedAB rosterAB 0 6).projections
    tableAB schedAB rosterAB 0 6).1
    (by rw [projAB_eq]; norm_num [projectPlayer])

/-- C7: a roster slot whose player is absent from the rate table leaves the
projection rows — hence every aggregate column sum — unchanged, leaves the
team-change notes unchanged, and adds exactly its name to the unresolved
warnings. -/
theorem C7_unresolved_reported (table : List PlayerRow) (sched : List ScheduleRow)
    (r1 r2 : List RosterEntry) (p : RosterEntry) (s e : Int)
    (h : lookupPlayerStats table p.name p.pro_team = LookupResult.notFound) :
    (get_player_projections table sched (r1 ++ p :: r2) s e).projections =
      (get_player_projections table sched (r1 ++ r2) s e).projections ∧
    (get_player_projections table sched (r1 ++ p :: r2) s e).team_change_notes =
      (get_player_projections table sched (r1 ++ r2) s e).team_change_notes ∧
    (get_player_projections table sched (r1 ++ p :: r2) s e).unresolved.length =
      (get_player_projections table sched (r1 ++ r2) s e).unresolved.length + 1 ∧
    p.name ∈ (get_player_projections table sched (r1 ++ p :: r2) s e).unresolved ∧
    (∀ f : ProjectionRow → ℚ,
      ((get_player_projections table sched (r1 ++ p :: r2) s e).projections.map f).sum =
      ((get_player_projections table sched (r1 ++ r2) s e).projections.map f).sum) := by
  induction r1 with
  | nil =>
    simp only [List.nil_append]
    refine ⟨?_, ?_, ?_, ?_, ?_⟩ <;>
      simp [get_player_projections, h]
  | cons q r1' ih =>
    obtain ⟨ih1, ih2, ih3, ih4, ih5⟩ := ih
    cases hq : lookupPlayerStats table q.name q.pro_team with
    | found st ch =>
      refine ⟨?_, ?_, ?_, ?_, ?_⟩ <;>
        simp [get_player_projections, hq, ih1, ih2, ih3, ih4, ih5]
    | notFound =>
      refine ⟨?_, ?_, ?_, ?_, ?_⟩ <;>
        simp [get_player_projections, hq, ih1, ih2, ih3, ih4, ih5]

/-- Closed witness for C7: a roster with exactly one player absent from the
rate table yields an unresolved list of length one while the aggregates
match the roster without that player. -/
theorem C7_unresolved_reported_witness :
    (get_player_projections tableAB schedAB
        (rosterAB ++ [⟨"Ghost", "CCC"⟩]) 0 6).unresolved.length = 1 ∧
    ((get_player_projections tableAB schedAB
        (rosterAB ++ [⟨"Ghost", "CCC"⟩]) 0 6).projections.map ProjectionRow.PTS).sum =
      ((get_player_projections tableAB schedAB rosterAB 0 6).projections.map
        ProjectionRow.PTS).sum := by
  have h := C7_unresolved_reported tableAB schedAB rosterAB [] ⟨"Ghost", "CCC"⟩ 0 6 rfl
  constructor
  · have h3 := h.2.2.1
    simp only [List.append_nil] at h3 ⊢
    rw [h3]
    rfl
  · have h5 := h.2.2.2.2 ProjectionRow.PTS
    simpa using h5

/-- `proj_col in projections_df.columns` followed by
`projections_df[proj_col].sum()` (analyze_matchup, matchup_analyzer.py
lines 430-433) for the DataFrame's numeric stat columns.  The remaining
DataFrame columns (`Player`, `Team`, `GamesRemaining` and the contribution
pairs) are never category names, because category names come from
`mapStatIdToColumn`, so they are unreachable here. -/
def columnSum (rows : List ProjectionRow) (col : String) : Option ℚ :=
  match col with
  | "PTS" => some (rows.map ProjectionRow.PTS).sum
  | "REB" => some (rows.map ProjectionRow.REB).sum
  | "AST" => some (rows.map ProjectionRow.AST).sum
  | "STL" => some (rows.map ProjectionRow.STL).sum
  | "BLK" => some (rows.map ProjectionRow.BLK).sum
  | "3PM" => some (rows.map ProjectionRow.threePM).sum
  | "FGM" => some (rows.map ProjectionRow.FGM).sum
  | "FGA" => some (rows.map ProjectionRow.FGA).sum
  | "FTM" => some (rows.map ProjectionRow.FTM).sum
  | "FTA" => some (rows.map ProjectionRow.FTA).sum
  | "TO" => some (rows.map ProjectionRow.TO).sum
  | _ => none

/-- The projected delta for one category (matchup_analyzer.py lines
430-443): the summed projection column when the category name is a column,
else the recomputed aggregate percentage rescaled by 100 for `FG%`/`FT%`,
else no delta (the category is skipped by `continue`). -/
def projDelta (rows : List ProjectionRow) (col : String) : Option ℚ :=
  match columnSum rows col with
  | some v => some v
  | none =>
    if col == "FG%" then some (fg_pct rows / 100)
    else if col == "FT%" then some (ft_pct rows / 100)
    else none

/-- One projected-category outcome printed by `analyze_matchup`
(matchup_analyzer.py lines 445-465): the projected final value for you, the
(unchanged) current opponent value, and whether the category is projected
as WINNING. -/
structure ProjLine where
  category : String
  current_yours : ℚ
  current_opp : ℚ
  projected_yours : ℚ
  winning : Bool
deriving DecidableEq, Repr

/-- Processing of one breakdown line in the projected phase
(matchup_analyzer.py lines 424-465): skip when no delta resolves; otherwise
`projected_yours = current_yours + delta`, compared against the unchanged
current opponent value with the orientation-aware strict inequality — the
`else` branch makes an exact tie a projected LOSS. -/
def projectLine (rows : List ProjectionRow) (cat : CatLine) : Option ProjLine :=
  match projDelta rows cat.category with
  | none => none
  | some v =>
    let projected_yours := cat.your_score + v
    let winning :=
      if cat.is_negative then decide (projected_yours < cat.opp_score)
      else decide (projected_yours > cat.opp_score)
    some { category := cat.category
           current_yours := cat.your_score
           current_opp := cat.opp_score
           projected_yours := projected_yours
           winning := winning }

/-- The projected-phase loop (matchup_analyzer.py lines 420-465): counts
projected wins and losses (there is no tie counter) and collects the
processed lines. -/
def projectedOutcomes (rows : List ProjectionRow) : List CatLine → Nat × Nat × List ProjLine
  | [] => (0, 0, [])
  | cat :: rest =>
    let r := projectedOutcomes rows rest
    match projectLine rows cat with
    | none => r
    | some l =>
      if l.winning then (r.1 + 1, r.2.1, l :: r.2.2)
      else (r.1, r.2.1 + 1, l :: r.2.2)

/-- C2: in the projected phase, the projected final value is the current
value plus the delta (the summed projection column for counting categories,
the recomputed aggregate percentage over 100 for FG%/FT%); the opponent's
current value is left unchanged; the WINNING flag is exactly the
orientation-aware strict inequality of rule 1, so an exact tie after
projection is classified as a LOSS for either orientation; and every
processed category is either a win or a loss (no tie state). -/
theorem C2_projected_phase (rows : List ProjectionRow) (cat : CatLine)
    (bd : List CatLine) :
    (∀ v, columnSum rows cat.category = some v →
      projectLine rows cat = some
        { category := cat.category
          current_yours := cat.your_score
          current_opp := cat.opp_score
          projected_yours := cat.your_score + v
          winning :=
            if cat.is_negative then decide (cat.your_score + v < cat.opp_score)
            else decide (cat.your_score + v > cat.opp_score) }) ∧
    (cat.category = "FG%" →
      projDelta rows cat.category = some (fg_pct rows / 100)) ∧
    (cat.category = "FT%" →
      projDelta rows cat.category = some (ft_pct rows / 100)) ∧
    (∀ l, projectLine rows cat = some l →
      l.current_yours = cat.your_score ∧
      l.current_opp = cat.opp_score ∧
      (l.winning = true ↔
        ((cat.is_negative = true ∧ l.projected_yours < cat.opp_score) ∨
         (cat.is_negative = false ∧ l.projected_yours > cat.opp_score))) ∧
      (l.projected_yours = cat.opp_score → l.winning = false)) ∧
    ((projectedOutcomes rows bd).1 + (projectedOutcomes rows bd).2.1 =
      (projectedOutcomes rows bd).2.2.length) ∧
    ((projectedOutcomes rows bd).2.2 = bd.filterMap (projectLine rows)) := by
  refine ⟨?_, ?_, ?_, ?_, ?_, ?_⟩
  · intro v h
    simp [projectLine, projDelta, h]
  · intro h
    rw [h]
    rfl
  · intro h
    rw [h]
    rfl
  · intro l hl
    rcases hd : projDelta rows cat.category with _ | v
    · simp [projectLine, hd] at hl
    · simp only [projectLine, hd] at hl
      cases hl
      refine ⟨rfl, rfl, ?_, ?_⟩
      · cases hneg : cat.is_negative <;> simp [hneg]
      · intro htie
        cases hneg : cat.is_negative <;>
          simp only [hneg, if_true, if_false, Bool.false_eq_true, decide_eq_false_iff_not] <;>
            simp_all
  · induction bd with
    | nil => simp [projectedOutcomes]
    | cons c rest ih =>
      simp only [projectedOutcomes]
      rcases hpl : projectLine rows c with _ | l
      · exact ih
      · by_cases hw : l.winning <;> simp [hw, List.length_cons] <;> omega
  · induction bd with
    | nil => simp [projectedOutcomes]
    | cons c rest ih =>
      simp only [projectedOutcomes, List.filterMap_cons]
      rcases hpl : projectLine rows c with _ | l
      · exact ih
      · by_cases hw : l.winning <;> simp [hw, ih]

/-- Closed witness for C2 at the concrete scenario: with a projected PTS
delta of 70, current 50 vs opponent 120 projects to an exact 120-120 tie,
which is classified as a LOSS (`winning = false`). -/
theorem C2_projected_phase_witness :
    projectLine (get_player_projections tableAB schedAB rosterAB 0 6).projections
      { category := "PTS", your_score := 50, opp_score := 120,
        winner := Winner.opp, is_negative := false } =
      some { category := "PTS", current_yours := 50, current_opp := 120,
             projected_yours := 120, winning := false } := by
  have hsum : columnSum (get_player_projections tableAB schedAB rosterAB 0 6).projections
      "PTS" = some 70 := by
    rw [columnSum, projAB_eq]
    norm_num [projectPlayer]
  have h := (C2_projected_phase
    (get_player_projections tableAB schedAB rosterAB 0 6).projections
    { category := "PTS", your_score := 50, opp_score := 120,
      winner := Winner.opp, is_negative := false } []).1 70 hsum
  rw [h]
  norm_num

/-- Monday normalization of `calculate_weekly_game_counts`
(schedule_analyzer.py lines 132-138): with dates as day numbers whose epoch
is a Monday, `dayofweek` is `emod 7`; a non-Monday input is shifted back by
`days_to_monday = dayofweek`. -/
def normalizeWeekStart (d : Int) : Int :=
  if d % 7 ≠ 0 then d - d % 7 else d

/-- `ScheduleAnalyzer.calculate_weekly_game_counts`
(schedule_analyzer.py lines 119-162): normalize the input date to a Monday
(emitting a warning, modelled as the Bool component, when an adjustment was
made), take the games from that Monday through the following Sunday
(`Monday + 6`) inclusive, and produce per-team `(team, count, game-days)`
rows sorted by count descending.  The pandas `groupby` key order is
normalized away by the final sort. -/
def calculate_weekly_game_counts (df : List ScheduleRow) (week_start_date : Int) :
    List (String × Nat × String) × Bool :=
  let week_start := normalizeWeekStart week_start_date
  let week_end := week_start + 6
  let week_games := df.filter (fun r =>
    decide (week_start ≤ r.ParsedDate) && decide (r.ParsedDate ≤ week_end))
  let teams := (week_games.map ScheduleRow.Team).dedup
  let game_counts := teams.map (fun t =>
    let tg := week_games.filter (fun r => r.Team == t)
    (t, tg.length, String.intercalate ", " (tg.map ScheduleRow.DayOfWeek).dedup))
  (List.insertionSort (fun a b => b.2.1 ≤ a.2.1) game_counts,
   decide (week_start_date % 7 ≠ 0))

instance : IsTotal (String × Nat × String) (fun a b => b.2.1 ≤ a.2.1) :=
  ⟨fun a b => le_total b.2.1 a.2.1⟩

instance : IsTrans (String × Nat × String) (fun a b => b.2.1 ≤ a.2.1) :=
  ⟨fun _ _ _ hab hbc => le_trans hbc hab⟩

/-- C9: the input date is normalized to the Monday of its week (a strictly
earlier day of the same week when the input is not a Monday, with the
warning flag set exactly then), and each reported count is the number of
the team's games from that Monday through the following Sunday (Monday + 6)
inclusive; every team playing in that window is reported. -/
theorem C9_weekly_game_counts (df : List ScheduleRow) (d : Int) :
    normalizeWeekStart d % 7 = 0 ∧
    normalizeWeekStart d ≤ d ∧
    d < normalizeWeekStart d + 7 ∧
    ((calculate_weekly_game_counts df d).2 = true ↔ d % 7 ≠ 0) ∧
    (∀ t k gd, (t, k, gd) ∈ (calculate_weekly_game_counts df d).1 →
      k = (df.filter (fun r =>
        r.Team == t && (decide (normalizeWeekStart d ≤ r.ParsedDate) &&
         decide (r.ParsedDate ≤ normalizeWeekStart d + 6)))).length) ∧
    (∀ r ∈ df, normalizeWeekStart d ≤ r.ParsedDate →
      r.ParsedDate ≤ normalizeWeekStart d + 6 →
      ∃ k gd, (r.Team, k, gd) ∈ (calculate_weekly_game_counts df d).1) := by
  have hperm := List.perm_insertionSort
    (fun a b : String × Nat × String => b.2.1 ≤ a.2.1)
    (((df.filter (fun r =>
        decide (normalizeWeekStart d ≤ r.ParsedDate) &&
        decide (r.ParsedDate ≤ normalizeWeekStart d + 6))).map ScheduleRow.Team).dedup.map
      (fun t =>
        let tg := (df.filter (fun r =>
          decide (normalizeWeekStart d ≤ r.ParsedDate) &&
          decide (r.ParsedDate ≤ normalizeWeekStart d + 6))).filter (fun r => r.Team == t)
        (t, tg.length, String.intercalate ", " (tg.map ScheduleRow.DayOfWeek).dedup)))
  refine ⟨?_, ?_, ?_, ?_, ?_, ?_⟩
  · unfold normalizeWeekStart
    split <;> omega
  · unfold normalizeWeekStart
    split <;> omega
  · unfold normalizeWeekStart
    split <;> omega
  · simp [calculate_weekly_game_counts]
  · intro t k gd hmem
    have hmem' := hperm.mem_iff.mp hmem
    rw [List.mem_map] at hmem'
    obtain ⟨t', _, heq⟩ := hmem'
    obtain ⟨rfl, rfl, rfl⟩ : t' = t ∧
        ((df.filter (fun r =>
          decide (normalizeWeekStart d ≤ r.ParsedDate) &&
          decide (r.ParsedDate ≤ normalizeWeekStart d + 6))).filter
            (fun r => r.Team == t')).length = k ∧
        String.intercalate ", " (((df.filter (fun r =>
          decide (normalizeWeekStart d ≤ r.ParsedDate) &&
          decide (r.ParsedDate ≤ normalizeWeekStart d + 6))).filter
            (fun r => r.Team == t')).map ScheduleRow.DayOfWeek).dedup = gd := by
      exact ⟨congrArg Prod.fst heq, congrArg (fun x => x.2.1) heq,
        congrArg (fun x => x.2.2) heq⟩
    rw [List.filter_filter]
  · intro r hr h1 h2
    have hteam : r.Team ∈ ((df.filter (fun r =>
        decide (normalizeWeekStart d ≤ r.ParsedDate) &&
        decide (r.ParsedDate ≤ normalizeWeekStart d + 6))).map ScheduleRow.Team).dedup := by
      rw [List.mem_dedup, List.mem_map]
      exact ⟨r, List.mem_filter.mpr ⟨hr, by simp [h1, h2]⟩, rfl⟩
    have hmem2 := List.mem_map_of_mem (fun t =>
        let tg := (df.filter (fun r =>
          decide (normalizeWeekStart d ≤ r.ParsedDate) &&
          decide (r.ParsedDate ≤ normalizeWeekStart d + 6))).filter (fun r2 => r2.Team == t)
        (t, tg.length, String.intercalate ", " (tg.map ScheduleRow.DayOfWeek).dedup)) hteam
    exact ⟨_, _, hperm.mem_iff.mpr hmem2⟩

/-- `BackToBackPosition` values written by `_enhance_schedule`
(espn_schedule_scraper.py lines 265-277): `'None'`, `'First'`, `'Second'`. -/
inductive B2BPos where
  | none : B2BPos
  | first : B2BPos
  | second : B2BPos
deriving DecidableEq, Repr

/-- One schedule entry annotated by the back-to-back pass of
`_enhance_schedule`: date, `IsBackToBack` flag and `BackToBackPosition`. -/
structure EnhancedGame where
  date : Int
  isBackToBack : Bool
  pos : B2BPos
deriving DecidableEq, Repr

/-- The back-to-back marking loop of `_enhance_schedule`
(espn_schedule_scraper.py lines 265-277), carried out over the
date-ascending rows: the Python loop walks `i = 1 .. len(df)-1` and, when
`days_diff == 1`, overwrites row `i-1` with `(True, 'First')` and row `i`
with `(True, 'Second')`.  The recursion carries the still-mutable previous
row and emits it in its final state at each step; every row starts as
`(False, 'None')`.  The `pd.notna` guards are dropped because every
modelled date is valid. -/
def markBackToBacks (prev : EnhancedGame) : List Int → List EnhancedGame
  | [] => [prev]
  | d :: rest =>
    if d - prev.date = 1 then
      { date := prev.date, isBackToBack := true, pos := B2BPos.first } ::
        markBackToBacks { date := d, isBackToBack := true, pos := B2BPos.second } rest
    else
      prev :: markBackToBacks { date := d, isBackToBack := false, pos := B2BPos.none } rest

/-- `_enhance_schedule`'s back-to-back pass over a whole (date-sorted)
schedule of one team, as a function of the ascending date list (the source
sorts by `ParsedDate` immediately before the loop). -/
def enhanceBackToBacks : List Int → List EnhancedGame
  | [] => []
  | d :: rest =>
    markBackToBacks { date := d, isBackToBack := false, pos := B2BPos.none } rest

/-- Closed form of the state the loop leaves an entry in, in terms of the
previous date, the entry's own date and the next date (if any): the later
write wins, so next-adjacency forces `First` and only otherwise does
previous-adjacency give `Second`. -/
def expectedEntry (dprev d : Int) (next? : Option Int) : EnhancedGame :=
  { date := d
    isBackToBack := decide (d - dprev = 1) || decide (next? = some (d + 1))
    pos :=
      if next? = some (d + 1) then B2BPos.first
      else if d - dprev = 1 then B2BPos.second
      else B2BPos.none }

/-- Head of the loop output: the carried previous entry, overwritten to
`(True, First)` exactly when the next date is one day later. -/
theorem markBackToBacks_head (prev : EnhancedGame) (ds : List Int) :
    (markBackToBacks prev ds)[0]? =
      some (if ds[0]? = some (prev.date + 1) then
        { date := prev.date, isBackToBack := true, pos := B2BPos.first } else prev) := by
  cases ds with
  | nil => simp [markBackToBacks]
  | cons d rest =>
    by_cases h : d - prev.date = 1
    · have hd : d = prev.date + 1 := by omega
      simp [markBackToBacks, h, hd]
    · have hd : ¬(d = prev.date + 1) := by omega
      simp [markBackToBacks, h, hd]

/-- The dates of the loop output are the carried date followed by the input
dates. -/
theorem markBackToBacks_dates (prev : EnhancedGame) (ds : List Int) :
    (markBackToBacks prev ds).map EnhancedGame.date = prev.date :: ds := by
  induction ds generalizing prev with
  | nil => simp [markBackToBacks]
  | cons d rest ih =>
    by_cases h : d - prev.date = 1 <;> simp [markBackToBacks, h, ih]

/-- Indexed characterization of the loop output past the head: entry `j+1`
is its date together with flags read off the neighbouring dates. -/
theorem markBackToBacks_get_succ (ds : List Int) :
    ∀ (prev : EnhancedGame) (j : Nat) (dp d : Int),
      (prev.date :: ds)[j]? = some dp → ds[j]? = some d →
      (markBackToBacks prev ds)[j + 1]? = some (expectedEntry dp d ds[j + 1]?) := by
  induction ds with
  | nil =>
    intro prev j dp d _ hd
    simp at hd
  | cons d0 rest ih =>
    intro prev j dp d hdp hd
    cases j with
    | zero =>
      rw [List.getElem?_cons_zero] at hdp hd
      obtain rfl : prev.date = dp := Option.some.inj hdp
      obtain rfl : d0 = d := Option.some.inj hd
      by_cases hadj : d0 - prev.date = 1
      · have hhead := markBackToBacks_head
          ({ date := d0, isBackToBack := true, pos := B2BPos.second } : EnhancedGame) rest
        rw [markBackToBacks, if_pos hadj, List.getElem?_cons_succ, hhead]
        by_cases hnext : rest[0]? = some (d0 + 1) <;>
          simp [expectedEntry, hnext, hadj]
      · have hhead := markBackToBacks_head
          ({ date := d0, isBackToBack := false, pos := B2BPos.none } : EnhancedGame) rest
        rw [markBackToBacks, if_neg hadj, List.getElem?_cons_succ, hhead]
        by_cases hnext : rest[0]? = some (d0 + 1) <;>
          simp [expectedEntry, hnext, hadj]
    | succ k =>
      rw [List.getElem?_cons_succ] at hdp hd
      by_cases hadj : d0 - prev.date = 1
      · rw [markBackToBacks, if_pos hadj, List.getElem?_cons_succ, List.getElem?_cons_succ]
        exact ih { date := d0, isBackToBack := true, pos := B2BPos.second } k dp d hdp hd
      · rw [markBackToBacks, if_neg hadj, List.getElem?_cons_succ, List.getElem?_cons_succ]
        exact ih { date := d0, isBackToBack := false, pos := B2BPos.none } k dp d hdp hd

/-- The dates of the enhanced schedule are the input dates. -/
theorem enhanceBackToBacks_dates (ds : List Int) :
    (enhanceBackToBacks ds).map EnhancedGame.date = ds := by
  cases ds with
  | nil => rfl
  | cons d rest => exact markBackToBacks_dates _ rest

/-- Head of the enhanced schedule: no previous game, so only next-adjacency
matters (the carried initial state has the head's own date, making the
previous-adjacency test `d - d = 1` false). -/
theorem enhanceBackToBacks_get_zero (d0 : Int) (rest : List Int) :
    (enhanceBackToBacks (d0 :: rest))[0]? =
      some (expectedEntry d0 d0 rest[0]?) := by
  rw [enhanceBackToBacks]
  rw [markBackToBacks_head]
  by_cases hnext : rest[0]? = some (d0 + 1) <;>
    simp [expectedEntry, hnext]

/-- Indexed characterization of the enhanced schedule past the head. -/
theorem enhanceBackToBacks_get_succ (ds : List Int) (j : Nat) (dp d : Int)
    (hdp : ds[j]? = some dp) (hd : ds[j + 1]? = some d) :
    (enhanceBackToBacks ds)[j + 1]? = some (expectedEntry dp d ds[j + 2]?) := by
  cases ds with
  | nil => simp at hdp
  | cons d0 rest =>
    rw [List.getElem?_cons_succ] at hd
    have := markBackToBacks_get_succ rest
      { date := d0, isBackToBack := false, pos := B2BPos.none } j dp d hdp hd
    rw [enhanceBackToBacks]
    rw [this]
    rw [List.getElem?_cons_succ]

/-- The enhanced schedule has one entry per input date. -/
theorem enhanceBackToBacks_length (ds : List Int) :
    (enhanceBackToBacks ds).length = ds.length := by
  have h := congrArg List.length (enhanceBackToBacks_dates ds)
  rwa [List.length_map] at h

/-- The date field of the closed-form entry. -/
theorem expectedEntry_date (dprev d : Int) (n : Option Int) :
    (expectedEntry dprev d n).date = d := rfl

/-- Counterexample to C5 as stated: on three consecutive dates the loop's
overwrite leaves both members of the first adjacent pair marked `First`:
the pair (index 0, index 1) has date difference 1 and both entries are
flagged, yet neither of them carries position `Second`. -/
theorem C5_back_to_back_counterexample :
    enhanceBackToBacks [0, 1, 2] =
      [{ date := 0, isBackToBack := true, pos := B2BPos.first },
       { date := 1, isBackToBack := true, pos := B2BPos.first },
       { date := 2, isBackToBack := true, pos := B2BPos.second }] ∧
    ¬((enhanceBackToBacks [0, 1, 2])[0]?.map EnhancedGame.pos = some B2BPos.second ∨
      (enhanceBackToBacks [0, 1, 2])[1]?.map EnhancedGame.pos = some B2BPos.second) := by
  refine ⟨by decide, by decide⟩

/-- C5 as amended: for a strictly date-ascending schedule with no run of
three games on three consecutive days (the source loop overwrites the
middle entry of such a run, turning its `Second` into `First`), the dates
are preserved; every index-adjacent pair one day apart is marked
back-to-back with the earlier entry `First` and the later `Second`; a
`First`/`Second` position occurs only with the corresponding 1-day
adjacency; the back-to-back flag holds exactly when some chronologically
adjacent entry is one day away; and (by strict sortedness) entries one day
apart are necessarily index-adjacent, so the marking covers exactly the
1-day pairs. -/
theorem C5_back_to_back_amended (dates : List Int)
    (hs : List.Chain' (· < ·) dates)
    (h3 : ∀ (j : Nat) (a b c : Int), dates[j]? = some a → dates[j + 1]? = some b →
      dates[j + 2]? = some c → ¬(b = a + 1 ∧ c = b + 1)) :
    ((enhanceBackToBacks dates).map EnhancedGame.date = dates) ∧
    (∀ (i : Nat) (a b : Int), dates[i]? = some a → dates[i + 1]? = some b → b - a = 1 →
      ∃ g g', (enhanceBackToBacks dates)[i]? = some g ∧
        (enhanceBackToBacks dates)[i + 1]? = some g' ∧
        g.date = a ∧ g'.date = b ∧
        g.isBackToBack = true ∧ g'.isBackToBack = true ∧
        g.pos = B2BPos.first ∧ g'.pos = B2BPos.second) ∧
    (∀ (i : Nat) (g : EnhancedGame), (enhanceBackToBacks dates)[i]? = some g →
      (g.pos = B2BPos.first → ∃ b, dates[i + 1]? = some b ∧ b - g.date = 1) ∧
      (g.pos = B2BPos.second →
        ∃ (j : Nat) (a : Int), i = j + 1 ∧ dates[j]? = some a ∧ g.date - a = 1) ∧
      (g.isBackToBack = true ↔
        ((∃ b, dates[i + 1]? = some b ∧ b - g.date = 1) ∨
         (∃ (j : Nat) (a : Int), i = j + 1 ∧ dates[j]? = some a ∧ g.date - a = 1)))) ∧
    (∀ (i j : Nat) (a b : Int), i < j → dates[i]? = some a → dates[j]? = some b →
      b - a = 1 → j = i + 1) := by
  have hsome : ∀ n, n < dates.length → ∃ x, dates[n]? = some x := by
    intro n hn
    rcases hx : dates[n]? with _ | x
    · rw [List.getElem?_eq_none_iff] at hx
      omega
    · exact ⟨x, rfl⟩
  have hlt : ∀ (n : Nat) (x : Int), dates[n]? = some x → n < dates.length := by
    intro n x hx
    by_contra hn
    rw [List.getElem?_eq_none (by omega)] at hx
    exact Option.noConfusion hx
  refine ⟨enhanceBackToBacks_dates dates, ?_, ?_, ?_⟩
  · -- adjacent 1-day pairs are marked First/Second
    intro i a b ha hb hdiff
    have hb1 : b = a + 1 := by omega
    subst hb1
    have hnot : ¬(dates[i + 2]? = some (a + 1 + 1)) := fun hcc =>
      h3 i a (a + 1) (a + 1 + 1) ha hb hcc ⟨rfl, rfl⟩
    have e1 := enhanceBackToBacks_get_succ dates i a (a + 1) ha hb
    cases i with
    | zero =>
      cases dates with
      | nil => simp at ha
      | cons d0 rest =>
        rw [List.getElem?_cons_zero] at ha
        obtain rfl : d0 = a := Option.some.inj ha
        rw [List.getElem?_cons_succ] at hb
        have e0 := enhanceBackToBacks_get_zero d0 rest
        rw [hb] at e0
        have hnot2 : ¬rest[1]? = some (d0 + 1 + 1) := fun hcc =>
          hnot (by simpa using hcc)
        refine ⟨_, _, e0, e1, ?_, ?_, ?_, ?_, ?_, ?_⟩ <;>
          simp [expectedEntry, hnot, hnot2]
    | succ k =>
      obtain ⟨dp, hdp⟩ := hsome k (by have := hlt (k + 1) a ha; omega)
      have e0 := enhanceBackToBacks_get_succ dates k dp a hdp ha
      rw [hb] at e0
      refine ⟨_, _, e0, e1, ?_, ?_, ?_, ?_, ?_, ?_⟩ <;>
        simp [expectedEntry, hnot]
  · -- positions and flags occur only with the adjacency
    intro i g hg
    cases i with
    | zero =>
      cases dates with
      | nil => simp [enhanceBackToBacks] at hg
      | cons d0 rest =>
        have e0 := enhanceBackToBacks_get_zero d0 rest
        obtain rfl : expectedEntry d0 d0 rest[0]? = g :=
          Option.some.inj (e0.symm.trans hg)
        by_cases hnext : rest[0]? = some (d0 + 1)
        · refine ⟨fun _ => ⟨d0 + 1, ?_, by rw [expectedEntry_date]; omega⟩, ?_, ?_⟩
          · rw [List.getElem?_cons_succ]
            exact hnext
          · intro hpos
            simp [expectedEntry, hnext] at hpos
          · constructor
            · intro _
              exact Or.inl ⟨d0 + 1, by rw [List.getElem?_cons_succ]; exact hnext, by
                rw [expectedEntry_date]; omega⟩
            · intro _
              simp [expectedEntry, hnext]
        · refine ⟨?_, ?_, ?_⟩
          · intro hpos
            simp [expectedEntry, hnext] at hpos
          · intro hpos
            simp [expectedEntry, hnext] at hpos
          · constructor
            · intro hb2b
              simp [expectedEntry, hnext] at hb2b
            · rintro (⟨b, hb1, hb2⟩ | ⟨j, aa, hij, _, _⟩)
              · rw [List.getElem?_cons_succ] at hb1
                rw [expectedEntry_date] at hb2
                have hbd : b = d0 + 1 := by omega
                subst hbd
                exact absurd hb1 hnext
              · exact absurd hij (by omega)
    | succ k =>
      have hk1 : k + 1 < dates.length := by
        by_contra hn
        rw [List.getElem?_eq_none (by rw [enhanceBackToBacks_length]; omega)] at hg
        exact Option.noConfusion hg
      obtain ⟨d, hd⟩ := hsome (k + 1) hk1
      obtain ⟨dp, hdp⟩ := hsome k (by omega)
      have e := enhanceBackToBacks_get_succ dates k dp d hdp hd
      obtain rfl : expectedEntry dp d dates[k + 2]? = g :=
        Option.some.inj (e.symm.trans hg)
      by_cases hnext : dates[k + 2]? = some (d + 1)
      · refine ⟨fun _ => ⟨d + 1, hnext, by rw [expectedEntry_date]; omega⟩,
          fun hpos => ?_, ?_⟩
        · simp [expectedEntry, hnext] at hpos
        · constructor
          · intro _
            exact Or.inl ⟨d + 1, hnext, by rw [expectedEntry_date]; omega⟩
          · intro _
            simp [expectedEntry, hnext]
      · by_cases hprev : d - dp = 1
        · refine ⟨fun hpos => ?_,
            fun _ => ⟨k, dp, rfl, hdp, by rw [expectedEntry_date]; omega⟩, ?_⟩
          · simp [expectedEntry, hnext, hprev] at hpos
          · constructor
            · intro _
              exact Or.inr ⟨k, dp, rfl, hdp, by rw [expectedEntry_date]; omega⟩
            · intro _
              simp [expectedEntry, hprev]
        · refine ⟨fun hpos => ?_, fun hpos => ?_, ?_⟩
          · simp [expectedEntry, hnext, hprev] at hpos
          · simp [expectedEntry, hnext, hprev] at hpos
          · constructor
            · intro hb2b
              simp [expectedEntry, hnext, hprev] at hb2b
            · rintro (⟨b, hb1, hb2⟩ | ⟨j, aa, hij, hja, hda⟩)
              · rw [expectedEntry_date] at hb2
                have hbd : b = d + 1 := by omega
                subst hbd
                exact absurd hb1 hnext
              · have hjk : j = k := by omega
                subst hjk
                obtain rfl : aa = dp := Option.some.inj (hja.symm.trans hdp)
                rw [expectedEntry_date] at hda
                exact absurd hda hprev
  · -- strictly ascending: 1-day pairs are index-adjacent
    intro i j a b hij ha hb hdiff
    have hpw : List.Pairwise (· < ·) dates := List.chain'_iff_pairwise.mp hs
    by_contra hne
    have hj2 : i + 2 ≤ j := by omega
    obtain ⟨hjlen, hbj⟩ := List.getElem?_eq_some_iff.mp hb
    obtain ⟨hilen, hai⟩ := List.getElem?_eq_some_iff.mp ha
    have him : i + 1 < dates.length := by omega
    have h1 := List.pairwise_iff_getElem.mp hpw i (i + 1) hilen him (by omega)
    have h2 := List.pairwise_iff_getElem.mp hpw (i + 1) j him hjlen (by omega)
    rw [hai] at h1
    rw [hbj] at h2
    omega

/-- Closed witness for C1 at the concrete 5-vs-3 inputs. -/
theorem C1_category_winner_witness :
    categoryWinner true (5 : ℚ) 3 = Winner.opp ∧
    categoryWinner false (5 : ℚ) 3 = Winner.you :=
  ⟨(C1_category_winner true 5 3).2.2.2.1, (C1_category_winner false 5 3).2.2.2.2⟩

/-- Closed witness for C8: a concrete row inside the window is returned. -/
theorem C8_games_in_date_range_witness :
    (⟨"AAA", 1, "Wed"⟩ : ScheduleRow) ∈ get_games_in_date_range schedAB "aaa" 0 6 :=
  ((C8_games_in_date_range schedAB "aaa" 0 6).2.1 ⟨"AAA", 1, "Wed"⟩).mpr
    ⟨by decide, by decide, by decide, by decide⟩

/-- Closed witness for C9: a Thursday input (day 3 with a Monday epoch) is
flagged as adjusted and normalizes to the preceding Monday (day 0). -/
theorem C9_weekly_game_counts_witness :
    (calculate_weekly_game_counts schedAB 3).2 = true ∧
    normalizeWeekStart 3 = 0 :=
  ⟨(C9_weekly_game_counts schedAB 3).2.2.2.1.mpr (by decide), by decide⟩

/-- Closed witness for the amended C5: on the schedule `[0, 1, 5]` the
isolated back-to-back pair is marked `First`/`Second`. -/
theorem C5_back_to_back_amended_witness :
    (enhanceBackToBacks [0, 1, 5])[0]? =
      some { date := 0, isBackToBack := true, pos := B2BPos.first } ∧
    (enhanceBackToBacks [0, 1, 5])[1]? =
      some { date := 1, isBackToBack := true, pos := B2BPos.second } := by
  have hno3 : ∀ (j : Nat) (a b c : Int), ([0, 1, 5] : List Int)[j]? = some a →
      ([0, 1, 5] : List Int)[j + 1]? = some b →
      ([0, 1, 5] : List Int)[j + 2]? = some c → ¬(b = a + 1 ∧ c = b + 1) := by
    intro j a b c ha hb hc
    match j with
    | 0 =>
      simp at ha hb hc
      omega
    | j + 1 =>
      simp at hc
  obtain ⟨g, g', hg, hg', hd1, hd2, hb1, hb2, hp1, hp2⟩ :=
    (C5_back_to_back_amended [0, 1, 5]
      (by norm_num [List.chain'_cons, List.chain'_singleton]) hno3).2.1
      0 0 1 rfl rfl (by decide)
  constructor
  · rw [hg]
    have hgeq : g = { date := 0, isBackToBack := true, pos := B2BPos.first } := by
      cases g
      simp_all
    rw [hgeq]
  · rw [hg']
    have hgeq : g' = { date := 1, isBackToBack := true, pos := B2BPos.second } := by
      cases g'
      simp_all
    rw [hgeq]

end FantasyBasketball
